import Mathlib

/-!
Verification of the kernel composition and parameter-addressing engine of
the george Gaussian-process toolkit (src/templates/kernels.h).

The embedding models feature entries and hyperparameters as rationals;
every arithmetic identity claimed here is performed literally by the C++
code (the product rule scaling, chain-rule scaling and gradient routing
are exact in the source, not approximations), so exact arithmetic is the
faithful model of the claimed equalities.

The template in kernels.h is generic over a jinja2 `spec` supplying the
closed-form value and per-parameter / radial derivative expressions; the
embedding is correspondingly generic over `StationarySpec` and
`AdditiveSpec` records of those functions. The `Metric` and `Subspace`
collaborators are declared in metrics.h and subspace.h, which are part of
the repository but not in the provided sources; they are modelled from
the spec's interface contract (section 6).
-/

namespace George

/-- Modelled from the spec: the external `Metric` component (metrics.h is
not among the provided sources). Section 6: `value(x1, x2) -> r2`;
`gradient(x1, x2, out[size])` writing dr2/dtheta for the metric's own
parameters; `size()`, `get_ndim()`, `get_parameter(i)`,
`set_parameter(i, v)` with the same addressing contract as `Kernel`.
The parameter store is a list whose length is the metric's `size`; the
value and gradient maps are arbitrary functions of the current parameters
and the two inputs. -/
structure Metric where
  ndim : ℕ
  params : List ℚ
  valueFn : List ℚ → List ℚ → List ℚ → ℚ
  gradFn : List ℚ → List ℚ → List ℚ → List ℚ

def Metric.size (m : Metric) : ℕ := m.params.length

def Metric.get_ndim (m : Metric) : ℕ := m.ndim

def Metric.value (m : Metric) (x1 x2 : List ℚ) : ℚ := m.valueFn m.params x1 x2

def Metric.gradient (m : Metric) (x1 x2 : List ℚ) : List ℚ := m.gradFn m.params x1 x2

def Metric.get_parameter (m : Metric) (i : ℕ) : ℚ := m.params.getD i 0

def Metric.set_parameter (m : Metric) (i : ℕ) (v : ℚ) : Metric :=
  { m with params := m.params.set i v }

/-- Modelled from the spec: the section 6 contract that `Metric.gradient`
writes exactly `size()` entries into the caller's buffer. -/
def Metric.WF (m : Metric) : Prop :=
  ∀ x1 x2 : List ℚ, (m.gradient x1 x2).length = m.size

/-- Modelled from the spec: the external `Subspace` component (subspace.h
is not among the provided sources). Section 6: `get_naxes()` (count of
selected axes), `get_axis(i)` (the i-th selected feature index),
`get_ndim()` (required full feature-vector length). -/
structure Subspace where
  ndim : ℕ
  axes : List ℕ

def Subspace.get_naxes (s : Subspace) : ℕ := s.axes.length

def Subspace.get_axis (s : Subspace) (i : ℕ) : ℕ := s.axes.getD i 0

def Subspace.get_ndim (s : Subspace) : ℕ := s.ndim

/-- The jinja2 holes of the stationary template branch of kernels.h: the
`get_value` body (a function of the current hyperparameters and `r2`),
the per-hyperparameter gradient bodies (`{{ param }}_gradient`, indexed
here by hyperparameter position), and the `radial_gradient` body. -/
structure StationarySpec where
  value : List ℚ → ℚ → ℚ
  paramGrad : ℕ → List ℚ → ℚ → ℚ
  radialGrad : List ℚ → ℚ → ℚ

/-- The jinja2 holes of the additive (axis) template branch of kernels.h:
the `get_value` body (a function of the current hyperparameters and one
selected coordinate of each input) and the per-hyperparameter gradient
bodies. -/
structure AdditiveSpec where
  value : List ℚ → ℚ → ℚ → ℚ
  paramGrad : ℕ → List ℚ → ℚ → ℚ → ℚ

/-- A kernel tree: `Sum` and `Product` operator nodes over two children
(class `Operator` with subclasses `Sum`, `Product`), stationary leaves
(a generated stationary-family class: hyperparameter values plus an owned
`Metric`), and additive leaves (a generated axis-family class:
hyperparameter values plus an owned `Subspace`). The stored
hyperparameter list plays the role of the generated `param_*_` member
doubles, in declaration order; its length is the generated class's
`size_` member. -/
inductive Kernel where
  | sum (k1 k2 : Kernel)
  | prod (k1 k2 : Kernel)
  | stationary (sp : StationarySpec) (params : List ℚ) (metric : Metric)
  | additive (sp : AdditiveSpec) (params : List ℚ) (subspace : Subspace)

/-- `size()`: `Operator::size` is `kernel1_->size() + kernel2_->size()`
(kernels.h line 49); the stationary branch returns
`metric_->size() + size_` (line 187); the additive branch returns `size_`
(line 281). -/
def Kernel.size : Kernel → ℕ
  | .sum k1 k2 => k1.size + k2.size
  | .prod k1 k2 => k1.size + k2.size
  | .stationary _ ps m => m.size + ps.length
  | .additive _ ps _ => ps.length

/-- `get_ndim()`: `Operator::get_ndim` is `kernel1_->get_ndim()` (line 50,
the right child is never consulted); leaves delegate to their
`Metric` / `Subspace`. -/
def Kernel.get_ndim : Kernel → ℕ
  | .sum k1 _ => k1.get_ndim
  | .prod k1 _ => k1.get_ndim
  | .stationary _ _ m => m.get_ndim
  | .additive _ _ s => s.get_ndim

/-- `get_parameter(i)`: `Operator::get_parameter` routes to `kernel1_` if
`i < kernel1_->size()`, else to `kernel2_` at `i - n` (lines 56-60). The
stationary branch's generated chain `if (i == 0) ... if (i == k-1)`
returns the matching own hyperparameter and otherwise falls through to
`metric_->get_parameter(i - size_)`; the additive branch falls through to
`return 0.0`. -/
def Kernel.get_parameter : Kernel → ℕ → ℚ
  | .sum k1 k2, i =>
      if i < k1.size then k1.get_parameter i else k2.get_parameter (i - k1.size)
  | .prod k1 k2, i =>
      if i < k1.size then k1.get_parameter i else k2.get_parameter (i - k1.size)
  | .stationary _ ps m, i =>
      if i < ps.length then ps.getD i 0 else m.get_parameter (i - ps.length)
  | .additive _ ps _, i =>
      if i < ps.length then ps.getD i 0 else 0

/-- `set_parameter(i, v)`: `Operator::set_parameter` routes like
`get_parameter` (lines 51-55). The stationary branch's generated
`if (i == j) param_j_ = value; else ...` chain ends in
`metric_->set_parameter(i - size_, value)`; the additive branch's chain
ends in the empty statement `;` (out-of-range writes are dropped). -/
def Kernel.set_parameter : Kernel → ℕ → ℚ → Kernel
  | .sum k1 k2, i, v =>
      if i < k1.size then .sum (k1.set_parameter i v) k2
      else .sum k1 (k2.set_parameter (i - k1.size) v)
  | .prod k1 k2, i, v =>
      if i < k1.size then .prod (k1.set_parameter i v) k2
      else .prod k1 (k2.set_parameter (i - k1.size) v)
  | .stationary sp ps m, i, v =>
      if i < ps.length then .stationary sp (ps.set i v) m
      else .stationary sp ps (m.set_parameter (i - ps.length) v)
  | .additive sp ps s, i, v =>
      if i < ps.length then .additive sp (ps.set i v) s
      else .additive sp ps s

/-- `value(x1, x2)`: `Sum::value` adds, `Product::value` multiplies
(lines 69-71, 82-84); the stationary branch applies `get_value` to the
current hyperparameters and `r2 = metric_->value(x1, x2)` (lines 140-147);
the additive branch accumulates `get_value` over the selected axes
`j = subspace_->get_axis(i)`, `i < get_naxes()` (lines 237-249). Feature
vectors are lists read with default 0 (the C code indexes raw pointers). -/
def Kernel.value : Kernel → List ℚ → List ℚ → ℚ
  | .sum k1 k2, x1, x2 => k1.value x1 x2 + k2.value x1 x2
  | .prod k1 k2, x1, x2 => k1.value x1 x2 * k2.value x1 x2
  | .stationary sp ps m, x1, x2 => sp.value ps (m.value x1 x2)
  | .additive sp ps s, x1, x2 =>
      (List.range s.get_naxes).foldl
        (fun acc i =>
          acc + sp.value ps (x1.getD (s.get_axis i) 0) (x2.getD (s.get_axis i) 0)) 0

/-- `gradient(x1, x2, grad)`, modelled as the list of `size` entries the
call writes into the caller's buffer. `Sum::gradient` writes `kernel1_`'s
gradient at offset 0 and `kernel2_`'s at offset `n = kernel1_->size()`
(lines 72-76), hence the append. `Product::gradient` does the same and
then scales `grad[0..n1)` by `kernel2_->value` and `grad[n1..size())` by
`kernel1_->value` (lines 85-93). The stationary branch writes each
hyperparameter's `{{ param }}_gradient` at `r2` into `grad[0..size_)`,
lets the metric write `grad[size_..)`, and scales that tail by
`radial_gradient` (lines 167-185). The additive branch zeroes
`grad[0..size_)` then accumulates each hyperparameter's per-axis gradient
over the selected axes (lines 261-279). -/
def Kernel.gradient : Kernel → List ℚ → List ℚ → List ℚ
  | .sum k1 k2, x1, x2 => k1.gradient x1 x2 ++ k2.gradient x1 x2
  | .prod k1 k2, x1, x2 =>
      (k1.gradient x1 x2).map (fun g => g * k2.value x1 x2) ++
      (k2.gradient x1 x2).map (fun g => g * k1.value x1 x2)
  | .stationary sp ps m, x1, x2 =>
      (List.range ps.length).map (fun j => sp.paramGrad j ps (m.value x1 x2)) ++
      (m.gradient x1 x2).map (fun g => g * sp.radialGrad ps (m.value x1 x2))
  | .additive sp ps s, x1, x2 =>
      (List.range ps.length).map (fun j =>
        (List.range s.get_naxes).foldl
          (fun acc i =>
            acc + sp.paramGrad j ps (x1.getD (s.get_axis i) 0) (x2.getD (s.get_axis i) 0)) 0)

/-- Every metric in the tree honours the section 6 contract that its
gradient writes exactly `size()` entries. -/
def Kernel.WF : Kernel → Prop
  | .sum k1 k2 => k1.WF ∧ k2.WF
  | .prod k1 k2 => k1.WF ∧ k2.WF
  | .stationary _ _ m => m.WF
  | .additive _ _ _ => True

/-! Helper lemmas. -/

theorem getD_map_mul (c : ℚ) :
    ∀ (l : List ℚ) (i : ℕ), (l.map (fun g => g * c)).getD i 0 = l.getD i 0 * c
  | [], i => by simp [List.getD]
  | x :: xs, 0 => rfl
  | x :: xs, i + 1 => getD_map_mul c xs i

theorem getD_map_range {f : ℕ → ℚ} {n i : ℕ} (h : i < n) :
    ((List.range n).map f).getD i 0 = f i := by
  rw [List.getD_eq_getElem _ _ (by simpa using h)]
  simp

theorem gradient_length (x1 x2 : List ℚ) :
    ∀ k : Kernel, k.WF → (k.gradient x1 x2).length = k.size
  | .sum k1 k2, h => by
      simp [Kernel.gradient, Kernel.size,
        gradient_length x1 x2 k1 h.1, gradient_length x1 x2 k2 h.2]
  | .prod k1 k2, h => by
      simp [Kernel.gradient, Kernel.size,
        gradient_length x1 x2 k1 h.1, gradient_length x1 x2 k2 h.2]
  | .stationary sp ps m, h => by
      simp [Kernel.gradient, Kernel.size, h x1 x2, Nat.add_comm]
  | .additive sp ps s, _ => by
      simp [Kernel.gradient, Kernel.size]

theorem size_set_parameter : ∀ (k : Kernel) (i : ℕ) (v : ℚ),
    (k.set_parameter i v).size = k.size
  | .sum k1 k2, i, v => by
      by_cases h : i < k1.size <;>
        simp [Kernel.set_parameter, Kernel.size, h, size_set_parameter]
  | .prod k1 k2, i, v => by
      by_cases h : i < k1.size <;>
        simp [Kernel.set_parameter, Kernel.size, h, size_set_parameter]
  | .stationary sp ps m, i, v => by
      by_cases h : i < ps.length <;>
        simp [Kernel.set_parameter, Kernel.size, h, Metric.set_parameter, Metric.size]
  | .additive sp ps s, i, v => by
      by_cases h : i < ps.length <;>
        simp [Kernel.set_parameter, Kernel.size, h]

theorem ndim_set_parameter : ∀ (k : Kernel) (i : ℕ) (v : ℚ),
    (k.set_parameter i v).get_ndim = k.get_ndim
  | .sum k1 k2, i, v => by
      by_cases h : i < k1.size <;>
        simp [Kernel.set_parameter, Kernel.get_ndim, h, ndim_set_parameter]
  | .prod k1 k2, i, v => by
      by_cases h : i < k1.size <;>
        simp [Kernel.set_parameter, Kernel.get_ndim, h, ndim_set_parameter]
  | .stationary sp ps m, i, v => by
      by_cases h : i < ps.length <;>
        simp [Kernel.set_parameter, Kernel.get_ndim, h, Metric.set_parameter, Metric.get_ndim]
  | .additive sp ps s, i, v => by
      by_cases h : i < ps.length <;>
        simp [Kernel.set_parameter, Kernel.get_ndim, h]

/-! Concrete instances used by the witness theorems. -/

def subspaceSample : Subspace := { ndim := 2, axes := [0, 1] }

def subspaceEmpty : Subspace := { ndim := 1, axes := [] }

def metricSample : Metric :=
  { ndim := 2, params := [3],
    valueFn := fun p y1 y2 => p.getD 0 1 * (y1.getD 0 0 - y2.getD 0 0) ^ 2,
    gradFn := fun _ y1 y2 => [(y1.getD 0 0 - y2.getD 0 0) ^ 2] }

def statSample : StationarySpec :=
  { value := fun _ r2 => 1 - r2,
    paramGrad := fun _ _ r2 => r2,
    radialGrad := fun _ _ => -1 }

def addSample : AdditiveSpec :=
  { value := fun p a b => p.getD 0 0 * a * b,
    paramGrad := fun _ _ a b => a * b }

def leafA : Kernel := Kernel.additive addSample [2] subspaceSample

def leafB : Kernel := Kernel.stationary statSample [] metricSample

/-! The claims. -/

/-- C3: for all kernels A, B and inputs, `Sum(A,B).value` is the sum of
the children's values and `Product(A,B).value` is their product. -/
theorem sum_prod_value_law (A B : Kernel) (x1 x2 : List ℚ) :
    (Kernel.sum A B).value x1 x2 = A.value x1 x2 + B.value x1 x2 ∧
    (Kernel.prod A B).value x1 x2 = A.value x1 x2 * B.value x1 x2 :=
  ⟨rfl, rfl⟩

/-- C6: `size(Sum(A,B)) = size(Product(A,B)) = sA + sB`; a stationary
leaf's size is its own hyperparameter count plus its metric's size; an
additive leaf's size is its own hyperparameter count only. -/
theorem size_law (A B : Kernel) (sp : StationarySpec) (ps : List ℚ) (m : Metric)
    (ap : AdditiveSpec) (qs : List ℚ) (s : Subspace) :
    (Kernel.sum A B).size = A.size + B.size ∧
    (Kernel.prod A B).size = A.size + B.size ∧
    (Kernel.stationary sp ps m).size = ps.length + m.size ∧
    (Kernel.additive ap qs s).size = qs.length :=
  ⟨rfl, rfl, Nat.add_comm _ _, rfl⟩

/-- C8: `set_parameter` never changes `size()` or `get_ndim()` of any
node (operator, stationary leaf or additive leaf), for every index and
value; size and ndim are fixed for the lifetime of the node. -/
theorem set_parameter_preserves_size_ndim (k : Kernel) (i : ℕ) (v : ℚ) :
    (k.set_parameter i v).size = k.size ∧
    (k.set_parameter i v).get_ndim = k.get_ndim :=
  ⟨size_set_parameter k i v, ndim_set_parameter k i v⟩

/-- C9: an operator's `get_ndim()` is the left child's ndim,
unconditionally: it holds for every right child B, matching or not — no
check of `B.get_ndim` is performed. -/
theorem operator_ndim_left (A B : Kernel) :
    (Kernel.sum A B).get_ndim = A.get_ndim ∧
    (Kernel.prod A B).get_ndim = A.get_ndim :=
  ⟨rfl, rfl⟩

/-- C7: an additive kernel over a subspace selecting zero axes has value
0 and an all-zero gradient (all `size` written entries are 0), for all
inputs and hyperparameter values. -/
theorem additive_zero_axes (sp : AdditiveSpec) (ps : List ℚ) (s : Subspace)
    (x1 x2 : List ℚ) (h : s.get_naxes = 0) :
    (Kernel.additive sp ps s).value x1 x2 = 0 ∧
    (Kernel.additive sp ps s).gradient x1 x2
      = List.replicate (Kernel.additive sp ps s).size 0 := by
  constructor
  · simp [Kernel.value, h]
  · simp [Kernel.gradient, Kernel.size, h]

/-- Witness for C7 at a concrete additive kernel over an empty subspace. -/
theorem additive_zero_axes_witness :
    subspaceEmpty.get_naxes = 0 ∧
    ((Kernel.additive addSample [2] subspaceEmpty).value [1] [3] = 0 ∧
     (Kernel.additive addSample [2] subspaceEmpty).gradient [1] [3]
       = List.replicate (Kernel.additive addSample [2] subspaceEmpty).size 0) :=
  ⟨rfl, additive_zero_axes addSample [2] subspaceEmpty [1] [3] rfl⟩

/-- C10: on an additive leaf with k hyperparameters, `get_parameter(i)`
for `i >= k` returns 0.0 (the generated if-chain falls through to
`return 0.0`) and `set_parameter(i, v)` for `i >= k` is a no-op leaving
the kernel unchanged (the chain ends in an empty statement). -/
theorem additive_out_of_range (sp : AdditiveSpec) (ps : List ℚ) (s : Subspace)
    (i : ℕ) (v : ℚ) (h : ps.length ≤ i) :
    (Kernel.additive sp ps s).get_parameter i = 0 ∧
    (Kernel.additive sp ps s).set_parameter i v = Kernel.additive sp ps s := by
  constructor <;> simp [Kernel.get_parameter, Kernel.set_parameter, Nat.not_lt.mpr h]

/-- Witness for C10 at a concrete one-hyperparameter additive kernel and
index 1. -/
theorem additive_out_of_range_witness :
    ([(2 : ℚ)].length ≤ 1) ∧
    ((Kernel.additive addSample [2] subspaceSample).get_parameter 1 = 0 ∧
     (Kernel.additive addSample [2] subspaceSample).set_parameter 1 7
       = Kernel.additive addSample [2] subspaceSample) :=
  ⟨by decide, additive_out_of_range addSample [2] subspaceSample 1 7 (by decide)⟩

/-- C1: `Product::gradient` obeys the product rule entrywise: for
`i < sA` the written entry is A's own gradient entry scaled by B's value;
for `sA <= i < sA + sB` it is B's gradient entry at `i - sA` scaled by
A's value, all at the same inputs. -/
theorem product_gradient_law (A B : Kernel) (x1 x2 : List ℚ)
    (hA : A.WF) (hB : B.WF) :
    (∀ i, i < A.size →
      ((Kernel.prod A B).gradient x1 x2).getD i 0
        = (A.gradient x1 x2).getD i 0 * B.value x1 x2) ∧
    (∀ i, A.size ≤ i → i < A.size + B.size →
      ((Kernel.prod A B).gradient x1 x2).getD i 0
        = (B.gradient x1 x2).getD (i - A.size) 0 * A.value x1 x2) := by
  have h1 := gradient_length x1 x2 A hA
  have h2 := gradient_length x1 x2 B hB
  constructor
  · intro i hi
    show ((A.gradient x1 x2).map (fun g => g * B.value x1 x2) ++
        (B.gradient x1 x2).map (fun g => g * A.value x1 x2)).getD i 0 = _
    rw [List.getD_append _ _ _ _ (by simp [h1, hi]), getD_map_mul]
  · intro i hi1 hi2
    show ((A.gradient x1 x2).map (fun g => g * B.value x1 x2) ++
        (B.gradient x1 x2).map (fun g => g * A.value x1 x2)).getD i 0 = _
    rw [List.getD_append_right _ _ _ _ (by simp [h1, hi1]),
      List.length_map, h1, getD_map_mul]

/-- Witness for C1 at a concrete product of an additive and a stationary
leaf, at indices 0 (left half) and 1 (right half). -/
theorem product_gradient_law_witness :
    leafA.WF ∧ leafB.WF ∧
    ((Kernel.prod leafA leafB).gradient [1, 2] [3, 4]).getD 0 0
      = (leafA.gradient [1, 2] [3, 4]).getD 0 0 * leafB.value [1, 2] [3, 4] ∧
    ((Kernel.prod leafA leafB).gradient [1, 2] [3, 4]).getD 1 0
      = (leafB.gradient [1, 2] [3, 4]).getD (1 - leafA.size) 0 * leafA.value [1, 2] [3, 4] :=
  have hA : leafA.WF := trivial
  have hB : leafB.WF := fun _ _ => rfl
  ⟨hA, hB,
    (product_gradient_law leafA leafB [1, 2] [3, 4] hA hB).1 0 (by decide),
    (product_gradient_law leafA leafB [1, 2] [3, 4] hA hB).2 1 (by decide) (by decide)⟩

/-- C4: `Sum::gradient` fills the first sA entries with exactly A's
gradient and the next sB entries with exactly B's gradient (the written
buffer is literally the concatenation of the children's gradients), each
half depending only on its own child. -/
theorem sum_gradient_law (A B : Kernel) (x1 x2 : List ℚ)
    (hA : A.WF) (hB : B.WF) :
    (Kernel.sum A B).gradient x1 x2 = A.gradient x1 x2 ++ B.gradient x1 x2 ∧
    ((Kernel.sum A B).gradient x1 x2).length = A.size + B.size ∧
    (∀ i, i < A.size →
      ((Kernel.sum A B).gradient x1 x2).getD i 0 = (A.gradient x1 x2).getD i 0) ∧
    (∀ i, A.size ≤ i → i < A.size + B.size →
      ((Kernel.sum A B).gradient x1 x2).getD i 0
        = (B.gradient x1 x2).getD (i - A.size) 0) := by
  have h1 := gradient_length x1 x2 A hA
  have h2 := gradient_length x1 x2 B hB
  refine ⟨rfl, ?_, ?_, ?_⟩
  · show (A.gradient x1 x2 ++ B.gradient x1 x2).length = _
    simp [h1, h2]
  · intro i hi
    exact List.getD_append _ _ _ _ (by simp [h1, hi])
  · intro i hi1 hi2
    show (A.gradient x1 x2 ++ B.gradient x1 x2).getD i 0 = _
    rw [List.getD_append_right _ _ _ _ (by simp [h1, hi1]), h1]

/-- Witness for C4 at a concrete sum of an additive and a stationary
leaf, at indices 0 (left half) and 1 (right half). -/
theorem sum_gradient_law_witness :
    leafA.WF ∧ leafB.WF ∧
    ((Kernel.sum leafA leafB).gradient [1, 2] [3, 4]).getD 0 0
      = (leafA.gradient [1, 2] [3, 4]).getD 0 0 ∧
    ((Kernel.sum leafA leafB).gradient [1, 2] [3, 4]).getD 1 0
      = (leafB.gradient [1, 2] [3, 4]).getD (1 - leafA.size) 0 :=
  have hA : leafA.WF := trivial
  have hB : leafB.WF := fun _ _ => rfl
  ⟨hA, hB,
    (sum_gradient_law leafA leafB [1, 2] [3, 4] hA hB).2.2.1 0 (by decide),
    (sum_gradient_law leafA leafB [1, 2] [3, 4] hA hB).2.2.2 1 (by decide) (by decide)⟩

/-- C2: on a stationary leaf with k hyperparameters, the gradient entry
at flat index `k + i` is the metric's i-th gradient entry scaled by the
radial gradient, both at the same `r2 = metric.value(x1, x2)`; the first
k entries are the per-hyperparameter gradients at that same `r2`. -/
theorem stationary_gradient_chain (sp : StationarySpec) (ps : List ℚ) (m : Metric)
    (x1 x2 : List ℚ) (i : ℕ) (hm : m.WF) (hi : i < m.size) :
    ((Kernel.stationary sp ps m).gradient x1 x2).getD (ps.length + i) 0
      = (m.gradient x1 x2).getD i 0 * sp.radialGrad ps (m.value x1 x2) ∧
    (∀ j, j < ps.length →
      ((Kernel.stationary sp ps m).gradient x1 x2).getD j 0
        = sp.paramGrad j ps (m.value x1 x2)) := by
  constructor
  · show ((List.range ps.length).map (fun j => sp.paramGrad j ps (m.value x1 x2)) ++
        (m.gradient x1 x2).map (fun g => g * sp.radialGrad ps (m.value x1 x2))).getD
          (ps.length + i) 0 = _
    rw [List.getD_append_right _ _ _ _ (by simp), List.length_map, List.length_range,
      Nat.add_sub_cancel_left, getD_map_mul]
  · intro j hj
    show ((List.range ps.length).map (fun j => sp.paramGrad j ps (m.value x1 x2)) ++
        (m.gradient x1 x2).map (fun g => g * sp.radialGrad ps (m.value x1 x2))).getD j 0 = _
    rw [List.getD_append _ _ _ _ (by simp [hj]), getD_map_range hj]

/-- Witness for C2 at a concrete one-hyperparameter stationary kernel
over a one-parameter metric, at metric parameter index 0. -/
theorem stationary_gradient_chain_witness :
    metricSample.WF ∧ 0 < metricSample.size ∧
    ((Kernel.stationary statSample [5] metricSample).gradient [1, 2] [3, 4]).getD 1 0
      = (metricSample.gradient [1, 2] [3, 4]).getD 0 0
        * statSample.radialGrad [5] (metricSample.value [1, 2] [3, 4]) :=
  have hm : metricSample.WF := fun _ _ => rfl
  ⟨hm, by decide,
    (stationary_gradient_chain statSample [5] metricSample [1, 2] [3, 4] 0 hm (by decide)).1⟩

/-- C5: operator parameter addressing routes `get_parameter(i)` and
`set_parameter(i, v)` to the left child for `i < sA` and to the right
child at offset `i - sA` otherwise, for both Sum and Product; hence if
each child round-trips its own in-range indices, the operator
round-trips every in-range index exactly. -/
theorem operator_param_routing (A B : Kernel) (i : ℕ) (v : ℚ)
    (hA : ∀ j, j < A.size → (A.set_parameter j v).get_parameter j = v)
    (hB : ∀ j, j < B.size → (B.set_parameter j v).get_parameter j = v)
    (hi : i < A.size + B.size) :
    ((Kernel.sum A B).get_parameter i
       = if i < A.size then A.get_parameter i else B.get_parameter (i - A.size)) ∧
    ((Kernel.prod A B).get_parameter i
       = if i < A.size then A.get_parameter i else B.get_parameter (i - A.size)) ∧
    ((Kernel.sum A B).set_parameter i v
       = if i < A.size then Kernel.sum (A.set_parameter i v) B
         else Kernel.sum A (B.set_parameter (i - A.size) v)) ∧
    ((Kernel.prod A B).set_parameter i v
       = if i < A.size then Kernel.prod (A.set_parameter i v) B
         else Kernel.prod A (B.set_parameter (i - A.size) v)) ∧
    ((Kernel.sum A B).set_parameter i v).get_parameter i = v ∧
    ((Kernel.prod A B).set_parameter i v).get_parameter i = v := by
  refine ⟨rfl, rfl, rfl, rfl, ?_, ?_⟩
  all_goals
    by_cases h : i < A.size
    case pos =>
      simp only [Kernel.set_parameter, Kernel.get_parameter, if_pos h,
        size_set_parameter, if_pos h]
      exact hA i h
    case neg =>
      simp only [Kernel.set_parameter, Kernel.get_parameter, if_neg h]
      exact hB _ (by omega)

/-- Witness for C5 at a concrete sum/product of an additive and a
stationary leaf, setting then getting flat index 1 (routed to the right
child). -/
theorem operator_param_routing_witness :
    (∀ j, j < leafA.size → (leafA.set_parameter j 7).get_parameter j = 7) ∧
    (∀ j, j < leafB.size → (leafB.set_parameter j 7).get_parameter j = 7) ∧
    1 < leafA.size + leafB.size ∧
    ((Kernel.sum leafA leafB).set_parameter 1 7).get_parameter 1 = 7 ∧
    ((Kernel.prod leafA leafB).set_parameter 1 7).get_parameter 1 = 7 := by
  have hA : ∀ j, j < leafA.size → (leafA.set_parameter j 7).get_parameter j = 7 := by
    intro j hj
    have hj0 : j = 0 := Nat.lt_one_iff.mp hj
    subst hj0; rfl
  have hB : ∀ j, j < leafB.size → (leafB.set_parameter j 7).get_parameter j = 7 := by
    intro j hj
    have hj0 : j = 0 := Nat.lt_one_iff.mp hj
    subst hj0; rfl
  have hi : (1 : ℕ) < leafA.size + leafB.size := by decide
  have h := operator_param_routing leafA leafB 1 7 hA hB hi
  exact ⟨hA, hB, hi, h.2.2.2.2.1, h.2.2.2.2.2⟩

end George
